import Mathlib

/-!
Shallow embedding of the transaction engine (src/tx_engine.rs).

The engine replays a chronologically ordered list of transaction events
against per-client accounts.  We embed the core state machine:

* Monetary amounts are `f32` in the source; they are embedded by the type
  `F32` below, a model of IEEE-754 binary32 (round to nearest, ties to
  even, gradual underflow, overflow to infinity, NaN propagation) whose
  finite values are dyadic integers scaled by `2 ^ (-149)`.
* `InputRow` mirrors the deserialized CSV row (`type`, `client`, `tx`,
  optional `amount`).
* `OutputRow` mirrors a client account (`available`, `held`, `total`,
  `locked`).
* `History` mirrors `HashMap<HistoryKey, InputRow>` as a function
  `HistoryKey → Option InputRow`; `HashMap::insert` overwrites, which
  `History.insert` mirrors.
* Rust `Option::unwrap` panics on `None`; a processor that would panic is
  embedded as returning `none`, and `process_single_transaction` lifts this
  to the error `RunError.panicked`.  An unknown `type` token becomes
  `RunError.invalidTransactionType`, matching the propagated
  `io::Error`.
-/

/-- Model of an `f32` value.  A finite value `F32.finite k` denotes the
real number `k * 2 ^ (-149)`; `2 ^ (-149)` is the smallest positive
binary32, and every finite binary32 — and every exact sum or difference of
two of them — is an integer multiple of it, so the carrier is exact and the
only rounding happens in `roundF32`.  The two IEEE zeros collapse to
`finite 0` (they are indistinguishable under the `+`, `-` and `>` the
engine uses).  `inf true` is negative infinity. -/
inductive F32 where
  | nan : F32
  | inf : Bool → F32
  | finite : ℤ → F32
deriving DecidableEq

/-- Floor of the base-2 logarithm, by structural recursion on a fuel bound
so that kernel reduction works on large literals.  Agrees with the
mathematical `Nat.log2` whenever `n < 2 ^ fuel`. -/
def log2Fuel : Nat → Nat → Nat
  | 0, _ => 0
  | fuel + 1, n => if n ≤ 1 then 0 else log2Fuel fuel (n / 2) + 1

/-- Floor of the base-2 logarithm with fuel 300: exact for every
`n < 2 ^ 300`, which covers every finite binary32 magnitude in the
`2 ^ (-149)` scale (below `2 ^ 277`) and every sum or difference of two of
them (below `2 ^ 278`). -/
def f32Log2 (n : Nat) : Nat := log2Fuel 300 n

/-- Number of low bits discarded when rounding a magnitude `n` (in the
`2 ^ (-149)` scale) to binary32 precision: normal numbers keep a 24-bit
significand, subnormals (magnitude below `2 ^ 24`, i.e. value below
`2 ^ (-125)`) are exact on the `2 ^ (-149)` grid. -/
def f32Shift (n : Nat) : Nat :=
  if f32Log2 n ≤ 23 then 0 else f32Log2 n - 23

/-- Round a positive magnitude to the nearest multiple of `2 ^ sh`, ties to
even — the IEEE-754 default rounding, which is symmetric under negation. -/
def roundPos (sh : Nat) (n : Nat) : Nat :=
  let d := 2 ^ sh
  let q := n / d
  let r := n % d
  if 2 * r < d then d * q
  else if d < 2 * r then d * (q + 1)
  else if q % 2 = 0 then d * q else d * (q + 1)

/-- First magnitude (in the `2 ^ (-149)` scale) that overflows binary32:
`2 ^ 277` denotes `2 ^ 128`; a result that rounds to at least this becomes
an infinity.  Written as a product so the exponents stay evaluable. -/
def f32InfBound : Nat := 2 ^ 139 * 2 ^ 138

/-- Round an exact dyadic integer (the `2 ^ (-149)`-scaled value) to the
nearest binary32: round to nearest with ties to even, overflow to signed
infinity.  This is the rounding `f32` applies after `+` and `-`. -/
def roundF32 (k : ℤ) : F32 :=
  if k = 0 then F32.finite 0
  else
    let n2 := roundPos (f32Shift k.natAbs) k.natAbs
    if f32InfBound ≤ n2 then F32.inf (k < 0)
    else if k < 0 then F32.finite (-(n2 : ℤ)) else F32.finite ((n2 : ℤ))

/-- IEEE-754 binary32 addition (`f32 +`): NaN propagates, opposite
infinities give NaN, finite sums are computed exactly and rounded. -/
def F32.add : F32 → F32 → F32
  | F32.nan, _ => F32.nan
  | _, F32.nan => F32.nan
  | F32.inf s, F32.inf t => if s = t then F32.inf s else F32.nan
  | F32.inf s, F32.finite _ => F32.inf s
  | F32.finite _, F32.inf t => F32.inf t
  | F32.finite x, F32.finite y => roundF32 (x + y)

/-- IEEE-754 binary32 subtraction (`f32 -`). -/
def F32.sub : F32 → F32 → F32
  | F32.nan, _ => F32.nan
  | _, F32.nan => F32.nan
  | F32.inf s, F32.inf t => if s = t then F32.nan else F32.inf s
  | F32.inf s, F32.finite _ => F32.inf s
  | F32.finite _, F32.inf t => F32.inf (!t)
  | F32.finite x, F32.finite y => roundF32 (x - y)

/-- IEEE-754 binary32 less-than (`f32 <`): false on NaN operands. -/
def F32.blt : F32 → F32 → Bool
  | F32.nan, _ => false
  | _, F32.nan => false
  | F32.inf s, F32.inf t => s && !t
  | F32.inf s, F32.finite _ => s
  | F32.finite _, F32.inf t => !t
  | F32.finite x, F32.finite y => decide (x < y)

/-- IEEE-754 binary32 greater-than (`f32 >`), as used by the withdrawal
guard `amount > client_row.available`. -/
def F32.bgt (a b : F32) : Bool := F32.blt b a

/-- IEEE-754 binary32 equality (`f32 ==`): false on NaN operands. -/
def F32.beq : F32 → F32 → Bool
  | F32.nan, _ => false
  | _, F32.nan => false
  | F32.inf s, F32.inf t => decide (s = t)
  | F32.inf _, F32.finite _ => false
  | F32.finite _, F32.inf _ => false
  | F32.finite x, F32.finite y => decide (x = y)

/-- Event kinds (`TransactionType` in the source). -/
inductive TransactionType where
  | Deposit
  | Withdrawal
  | Dispute
  | Resolve
  | Chargeback
deriving DecidableEq

/-- A parsed input row (`InputRow` in the source).  `client` is a `u16` and
`tx` a `u32` in Rust; their numeric values are embedded as `Nat` (no
arithmetic is ever performed on them, they are only used as map keys). -/
structure InputRow where
  type : String
  client : Nat
  tx : Nat
  amount : Option F32
deriving DecidableEq

/-- Embeds `InputRow::transaction_type`: resolves the `type` token by
case-sensitive exact match; any other token yields `none`. -/
def InputRow.transaction_type (row : InputRow) : Option TransactionType :=
  if row.type = "deposit" then some TransactionType.Deposit
  else if row.type = "withdrawal" then some TransactionType.Withdrawal
  else if row.type = "dispute" then some TransactionType.Dispute
  else if row.type = "resolve" then some TransactionType.Resolve
  else if row.type = "chargeback" then some TransactionType.Chargeback
  else none

/-- A client account (`OutputRow` in the source). -/
structure OutputRow where
  client : Nat
  available : F32
  held : F32
  total : F32
  locked : Bool
deriving DecidableEq

/-- The `OutputRow` created by `create_client_if_non_exists` via
`..Default::default()`: all balances zero, unlocked. -/
def zeroAccount (client : Nat) : OutputRow :=
  { client := client, available := F32.finite 0, held := F32.finite 0,
    total := F32.finite 0, locked := false }

/-- History map key (`HistoryKey` in the source). -/
structure HistoryKey where
  client : Nat
  tx : Nat
  tx_type : TransactionType
deriving DecidableEq

/-- The event history, `HashMap<HistoryKey, InputRow>` in the source. -/
def History : Type := HistoryKey → Option InputRow

/-- Embeds `HashMap::insert`: stores `row` under `key`, overwriting any previous
entry at that key. -/
def History.insert (h : History) (key : HistoryKey) (row : InputRow) : History :=
  fun k => if k = key then some row else h k

/-- Embeds `processors::process_deposit`.  Returns `none` when the Rust code would
panic (`amount.unwrap()` on an absent amount). -/
def process_deposit (row : InputRow) (acc : OutputRow) (h : History) :
    Option (OutputRow × History) :=
  match row.amount with
  | none => none
  | some amount =>
      some ({ acc with
                available := F32.add acc.available amount,
                total := F32.add acc.total amount },
            h.insert ⟨row.client, row.tx, TransactionType.Deposit⟩ row)

/-- Embeds `processors::process_withdrawal`.  Returns `none` when the Rust code
would panic (`amount.unwrap()` on an absent amount). -/
def process_withdrawal (row : InputRow) (acc : OutputRow) (h : History) :
    Option (OutputRow × History) :=
  match row.amount with
  | none => none
  | some amount =>
      if F32.bgt amount acc.available || F32.bgt amount acc.total then
        some (acc, h)
      else
        some ({ acc with
                  available := F32.sub acc.available amount,
                  total := F32.sub acc.total amount },
              h.insert ⟨row.client, row.tx, TransactionType.Withdrawal⟩ row)

/-- Embeds `processors::process_dispute`: looks up the referenced deposit first,
then the referenced withdrawal; if neither exists the event is a no-op.
Returns `none` when the Rust code would panic (a stored referenced row with
an absent amount). -/
def process_dispute (row : InputRow) (acc : OutputRow) (h : History) :
    Option (OutputRow × History) :=
  match h ⟨row.client, row.tx, TransactionType.Deposit⟩ with
  | some depositRow =>
      match depositRow.amount with
      | none => none
      | some amount =>
          some ({ acc with
                    available := F32.sub acc.available amount,
                    held := F32.add acc.held amount },
                h.insert ⟨row.client, row.tx, TransactionType.Dispute⟩ row)
  | none =>
      match h ⟨row.client, row.tx, TransactionType.Withdrawal⟩ with
      | some withdrawalRow =>
          match withdrawalRow.amount with
          | none => none
          | some amount =>
              some ({ acc with
                        available := F32.sub acc.available amount,
                        held := F32.add acc.held amount },
                    h.insert ⟨row.client, row.tx, TransactionType.Dispute⟩ row)
      | none => some (acc, h)

/-- Embeds `processors::get_dispute_amount`: confirms a dispute entry is on record,
then recovers the amount from the referenced deposit (first) or withdrawal.
The outer `Option` is the panic channel (`none` = the Rust `unwrap` would
panic); the inner `Option` is the Rust function's own `Option<f32>`. -/
def get_dispute_amount (row : InputRow) (h : History) : Option (Option F32) :=
  if (h ⟨row.client, row.tx, TransactionType.Dispute⟩).isSome then
    match h ⟨row.client, row.tx, TransactionType.Deposit⟩ with
    | some depositRow =>
        match depositRow.amount with
        | none => none
        | some amount => some (some amount)
    | none =>
        match h ⟨row.client, row.tx, TransactionType.Withdrawal⟩ with
        | some withdrawalRow =>
            match withdrawalRow.amount with
            | none => none
            | some amount => some (some amount)
        | none => some none
  else some none

/-- Embeds `processors::process_resolve`. -/
def process_resolve (row : InputRow) (acc : OutputRow) (h : History) :
    Option (OutputRow × History) :=
  match get_dispute_amount row h with
  | none => none
  | some none => some (acc, h)
  | some (some amount) =>
      some ({ acc with
                held := F32.sub acc.held amount,
                available := F32.add acc.available amount }, h)

/-- Embeds `processors::process_chargeback`. -/
def process_chargeback (row : InputRow) (acc : OutputRow) (h : History) :
    Option (OutputRow × History) :=
  match get_dispute_amount row h with
  | none => none
  | some none => some (acc, h)
  | some (some amount) =>
      some ({ acc with
                held := F32.sub acc.held amount,
                total := F32.sub acc.total amount,
                locked := true }, h)

/-- Dispatch of `process_single_transaction`'s `match tx_type`. -/
def dispatch (t : TransactionType) (row : InputRow) (acc : OutputRow)
    (h : History) : Option (OutputRow × History) :=
  match t with
  | TransactionType.Deposit => process_deposit row acc h
  | TransactionType.Withdrawal => process_withdrawal row acc h
  | TransactionType.Dispute => process_dispute row acc h
  | TransactionType.Resolve => process_resolve row acc h
  | TransactionType.Chargeback => process_chargeback row acc h

/-- The engine state: `TransactionEngine`'s `clients` map together with the
`history` map threaded through `process`. -/
structure EngineState where
  clients : Nat → Option OutputRow
  history : History

/-- The state at the start of a run: both maps empty. -/
def initialState : EngineState :=
  { clients := fun _ => none, history := fun _ => none }

/-- Embeds `TransactionEngine::create_client_if_non_exists`. -/
def create_client_if_non_exists (client : Nat) (m : Nat → Option OutputRow) :
    Nat → Option OutputRow :=
  match m client with
  | some _ => m
  | none => fun c => if c = client then some (zeroAccount client) else m c

/-- The two ways a run can abort: an unrecognized `type` token (propagated
`io::Error`) or a Rust panic (a failed `unwrap`). -/
inductive RunError where
  | invalidTransactionType
  | panicked
deriving DecidableEq

/-- Embeds `TransactionEngine::process_single_transaction`: resolve the kind (hard
error on failure), ensure the client's account exists, dispatch to the
matching rule, and write the mutated account back. -/
def process_single_transaction (row : InputRow) (s : EngineState) :
    Except RunError EngineState :=
  match row.transaction_type with
  | none => Except.error RunError.invalidTransactionType
  | some t =>
      match create_client_if_non_exists row.client s.clients row.client with
      | none => Except.error RunError.panicked
      | some acc =>
          match dispatch t row acc s.history with
          | none => Except.error RunError.panicked
          | some (acc2, h2) =>
              Except.ok
                { clients := fun c =>
                    if c = row.client then some acc2
                    else create_client_if_non_exists row.client s.clients c,
                  history := h2 }

/-- The row-processing loop of `TransactionEngine::process`: rows are
consumed strictly in order and the first error aborts the run. -/
def processRows (rows : List InputRow) (s : EngineState) :
    Except RunError EngineState :=
  match rows with
  | [] => Except.ok s
  | row :: rest =>
      match process_single_transaction row s with
      | Except.error e => Except.error e
      | Except.ok s2 => processRows rest s2

/-! ## Basic lemmas about the embedded operations -/

lemma create_client_other (client : Nat) (m : Nat → Option OutputRow) (c : Nat)
    (hne : c ≠ client) : create_client_if_non_exists client m c = m c := by
  unfold create_client_if_non_exists
  cases m client with
  | some b => rfl
  | none => simp [hne]

lemma create_client_self (client : Nat) (m : Nat → Option OutputRow) :
    create_client_if_non_exists client m client
      = some ((m client).getD (zeroAccount client)) := by
  unfold create_client_if_non_exists
  cases hm : m client with
  | some b => simp [hm]
  | none => simp

/-- Inversion of a successful `process_single_transaction` step. -/
lemma step_ok_inv (row : InputRow) (s s' : EngineState)
    (hst : process_single_transaction row s = Except.ok s') :
    ∃ t acc a2 h2, row.transaction_type = some t ∧
      create_client_if_non_exists row.client s.clients row.client = some acc ∧
      dispatch t row acc s.history = some (a2, h2) ∧
      s'.clients = (fun c => if c = row.client then some a2
                    else create_client_if_non_exists row.client s.clients c) ∧
      s'.history = h2 := by
  unfold process_single_transaction at hst
  cases hty : row.transaction_type with
  | none => simp [hty] at hst
  | some t =>
    simp only [hty] at hst
    cases hacc : create_client_if_non_exists row.client s.clients row.client with
    | none => simp [hacc] at hst
    | some acc =>
      simp only [hacc] at hst
      cases hd : dispatch t row acc s.history with
      | none => simp [hd] at hst
      | some p =>
        cases p with
        | mk a2 h2 =>
          simp only [hd, Except.ok.injEq] at hst
          subst hst
          exact ⟨t, acc, a2, h2, rfl, rfl, hd, rfl, rfl⟩

lemma processRows_cons (row : InputRow) (rest : List InputRow) (s : EngineState) :
    processRows (row :: rest) s =
      match process_single_transaction row s with
      | Except.error e => Except.error e
      | Except.ok s2 => processRows rest s2 := rfl

lemma processRows_append (a b : List InputRow) (s : EngineState) :
    processRows (a ++ b) s =
      match processRows a s with
      | Except.error e => Except.error e
      | Except.ok s2 => processRows b s2 := by
  induction a generalizing s with
  | nil => rfl
  | cons row rest ih =>
    rw [List.cons_append, processRows_cons, processRows_cons]
    cases process_single_transaction row s with
    | error e => rfl
    | ok s2 => exact ih s2

/-- The history produced by a successful dispatch is either unchanged or a
single insert at a key built from the event's own client and tx; when the
inserted kind is Deposit or Withdrawal the inserted row carries an amount. -/
lemma dispatch_history_spec (t : TransactionType) (row : InputRow)
    (acc : OutputRow) (h : History) (a2 : OutputRow) (h2 : History)
    (hd : dispatch t row acc h = some (a2, h2)) :
    h2 = h
    ∨ (h2 = h.insert ⟨row.client, row.tx, TransactionType.Deposit⟩ row
         ∧ row.amount.isSome)
    ∨ (h2 = h.insert ⟨row.client, row.tx, TransactionType.Withdrawal⟩ row
         ∧ row.amount.isSome)
    ∨ h2 = h.insert ⟨row.client, row.tx, TransactionType.Dispute⟩ row := by
  cases t with
  | Deposit =>
    simp only [dispatch, process_deposit] at hd
    cases ham : row.amount with
    | none => simp [ham] at hd
    | some a =>
      simp only [ham, Option.some.injEq, Prod.mk.injEq] at hd
      exact Or.inr (Or.inl ⟨hd.2.symm, by simp [ham]⟩)
  | Withdrawal =>
    simp only [dispatch, process_withdrawal] at hd
    cases ham : row.amount with
    | none => simp [ham] at hd
    | some a =>
      simp only [ham] at hd
      by_cases hc : (F32.bgt a acc.available || F32.bgt a acc.total) = true
      · simp only [if_pos hc, Option.some.injEq, Prod.mk.injEq] at hd
        exact Or.inl hd.2.symm
      · simp only [if_neg hc, Option.some.injEq, Prod.mk.injEq] at hd
        exact Or.inr (Or.inr (Or.inl ⟨hd.2.symm, by simp [ham]⟩))
  | Dispute =>
    simp only [dispatch, process_dispute] at hd
    cases hdep : h ⟨row.client, row.tx, TransactionType.Deposit⟩ with
    | some depositRow =>
      simp only [hdep] at hd
      cases ham : depositRow.amount with
      | none => simp [ham] at hd
      | some a =>
        simp only [ham, Option.some.injEq, Prod.mk.injEq] at hd
        exact Or.inr (Or.inr (Or.inr hd.2.symm))
    | none =>
      simp only [hdep] at hd
      cases hwit : h ⟨row.client, row.tx, TransactionType.Withdrawal⟩ with
      | some withdrawalRow =>
        simp only [hwit] at hd
        cases ham : withdrawalRow.amount with
        | none => simp [ham] at hd
        | some a =>
          simp only [ham, Option.some.injEq, Prod.mk.injEq] at hd
          exact Or.inr (Or.inr (Or.inr hd.2.symm))
      | none =>
        simp only [hwit, Option.some.injEq, Prod.mk.injEq] at hd
        exact Or.inl hd.2.symm
  | Resolve =>
    simp only [dispatch, process_resolve] at hd
    cases hg : get_dispute_amount row h with
    | none => simp [hg] at hd
    | some o =>
      simp only [hg] at hd
      cases o with
      | none =>
        simp only [Option.some.injEq, Prod.mk.injEq] at hd
        exact Or.inl hd.2.symm
      | some a =>
        simp only [Option.some.injEq, Prod.mk.injEq] at hd
        exact Or.inl hd.2.symm
  | Chargeback =>
    simp only [dispatch, process_chargeback] at hd
    cases hg : get_dispute_amount row h with
    | none => simp [hg] at hd
    | some o =>
      simp only [hg] at hd
      cases o with
      | none =>
        simp only [Option.some.injEq, Prod.mk.injEq] at hd
        exact Or.inl hd.2.symm
      | some a =>
        simp only [Option.some.injEq, Prod.mk.injEq] at hd
        exact Or.inl hd.2.symm

/-- A successful dispatch never touches a history key whose client or tx
differs from the event's. -/
lemma dispatch_frame (t : TransactionType) (row : InputRow) (acc : OutputRow)
    (h : History) (a2 : OutputRow) (h2 : History)
    (hd : dispatch t row acc h = some (a2, h2)) (k : HistoryKey)
    (hk : k.client ≠ row.client ∨ k.tx ≠ row.tx) : h2 k = h k := by
  have hne : ∀ ty : TransactionType, k ≠ ⟨row.client, row.tx, ty⟩ := by
    intro ty hk2
    cases hk with
    | inl hc => exact hc (by rw [hk2])
    | inr hc => exact hc (by rw [hk2])
  rcases dispatch_history_spec t row acc h a2 h2 hd with
    heq | ⟨heq, -⟩ | ⟨heq, -⟩ | heq <;>
    subst heq <;> simp [History.insert, hne _]

lemma History.insert_isSome (h : History) (key : HistoryKey) (row : InputRow)
    (k : HistoryKey) (hk : (h k).isSome) : (h.insert key row k).isSome := by
  unfold History.insert
  by_cases hkey : k = key <;> simp [hkey, hk]

/-- A successful dispatch never deletes a history entry. -/
lemma dispatch_mono (t : TransactionType) (row : InputRow) (acc : OutputRow)
    (h : History) (a2 : OutputRow) (h2 : History)
    (hd : dispatch t row acc h = some (a2, h2)) (k : HistoryKey)
    (hk : (h k).isSome) : (h2 k).isSome := by
  rcases dispatch_history_spec t row acc h a2 h2 hd with
    heq | ⟨heq, -⟩ | ⟨heq, -⟩ | heq <;> subst heq
  · exact hk
  all_goals exact History.insert_isSome h _ row k hk

/-- Well-formedness of the history: every entry stored under a Deposit or
Withdrawal key carries an amount. -/
def HistWF (h : History) : Prop :=
  ∀ k row2, h k = some row2 →
    (k.tx_type = TransactionType.Deposit ∨ k.tx_type = TransactionType.Withdrawal) →
    row2.amount.isSome

lemma histWF_empty : HistWF (fun _ => none) := by
  intro k row2 hk
  simp at hk

/-- A successful dispatch preserves history well-formedness. -/
lemma dispatch_histWF (t : TransactionType) (row : InputRow) (acc : OutputRow)
    (h : History) (a2 : OutputRow) (h2 : History)
    (hd : dispatch t row acc h = some (a2, h2)) (hwf : HistWF h) : HistWF h2 := by
  rcases dispatch_history_spec t row acc h a2 h2 hd with
    heq | ⟨heq, hamt⟩ | ⟨heq, hamt⟩ | heq <;> subst heq
  · exact hwf
  · intro k row2 hk hkind
    by_cases hkey : k = ⟨row.client, row.tx, TransactionType.Deposit⟩
    · simp only [History.insert, if_pos hkey, Option.some.injEq] at hk
      subst hk; exact hamt
    · simp only [History.insert, if_neg hkey] at hk
      exact hwf k row2 hk hkind
  · intro k row2 hk hkind
    by_cases hkey : k = ⟨row.client, row.tx, TransactionType.Withdrawal⟩
    · simp only [History.insert, if_pos hkey, Option.some.injEq] at hk
      subst hk; exact hamt
    · simp only [History.insert, if_neg hkey] at hk
      exact hwf k row2 hk hkind
  · intro k row2 hk hkind
    by_cases hkey : k = ⟨row.client, row.tx, TransactionType.Dispute⟩
    · subst hkey
      cases hkind with
      | inl hc => exact absurd hc (by simp)
      | inr hc => exact absurd hc (by simp)
    · simp only [History.insert, if_neg hkey] at hk
      exact hwf k row2 hk hkind

/-- Under a well-formed history, `get_dispute_amount` never hits a failing
`unwrap`. -/
lemma get_dispute_amount_ok (row : InputRow) (h : History) (hwf : HistWF h) :
    (get_dispute_amount row h).isSome := by
  unfold get_dispute_amount
  by_cases hdis : (h ⟨row.client, row.tx, TransactionType.Dispute⟩).isSome
  · rw [if_pos hdis]
    cases hdep : h ⟨row.client, row.tx, TransactionType.Deposit⟩ with
    | some depositRow =>
      obtain ⟨a, ha⟩ := Option.isSome_iff_exists.mp (hwf _ _ hdep (Or.inl rfl))
      simp [ha]
    | none =>
      cases hwit : h ⟨row.client, row.tx, TransactionType.Withdrawal⟩ with
      | some withdrawalRow =>
        obtain ⟨a, ha⟩ := Option.isSome_iff_exists.mp (hwf _ _ hwit (Or.inr rfl))
        simp [ha]
      | none => simp
  · rw [if_neg hdis]; simp

/-- Under a well-formed history, `process_dispute` never panics. -/
lemma process_dispute_ok (row : InputRow) (acc : OutputRow) (h : History)
    (hwf : HistWF h) : (process_dispute row acc h).isSome := by
  unfold process_dispute
  cases hdep : h ⟨row.client, row.tx, TransactionType.Deposit⟩ with
  | some depositRow =>
    obtain ⟨a, ha⟩ := Option.isSome_iff_exists.mp (hwf _ _ hdep (Or.inl rfl))
    simp [ha]
  | none =>
    cases hwit : h ⟨row.client, row.tx, TransactionType.Withdrawal⟩ with
    | some withdrawalRow =>
      obtain ⟨a, ha⟩ := Option.isSome_iff_exists.mp (hwf _ _ hwit (Or.inr rfl))
      simp [ha]
    | none => simp

/-- Under a well-formed history, `process_resolve` never panics. -/
lemma process_resolve_ok (row : InputRow) (acc : OutputRow) (h : History)
    (hwf : HistWF h) : (process_resolve row acc h).isSome := by
  unfold process_resolve
  obtain ⟨o, ho⟩ := Option.isSome_iff_exists.mp (get_dispute_amount_ok row h hwf)
  rw [ho]
  cases o <;> simp

/-- Under a well-formed history, `process_chargeback` never panics. -/
lemma process_chargeback_ok (row : InputRow) (acc : OutputRow) (h : History)
    (hwf : HistWF h) : (process_chargeback row acc h).isSome := by
  unfold process_chargeback
  obtain ⟨o, ho⟩ := Option.isSome_iff_exists.mp (get_dispute_amount_ok row h hwf)
  rw [ho]
  cases o <;> simp

/-- Under a well-formed history, a dispatch panics only when a deposit or
withdrawal arrives without an amount. -/
lemma dispatch_ok (t : TransactionType) (row : InputRow) (acc : OutputRow)
    (h : History) (hwf : HistWF h)
    (hamt : t = TransactionType.Deposit ∨ t = TransactionType.Withdrawal →
      row.amount.isSome) :
    (dispatch t row acc h).isSome := by
  cases t with
  | Deposit =>
    obtain ⟨a, ha⟩ := Option.isSome_iff_exists.mp (hamt (Or.inl rfl))
    simp [dispatch, process_deposit, ha]
  | Withdrawal =>
    obtain ⟨a, ha⟩ := Option.isSome_iff_exists.mp (hamt (Or.inr rfl))
    simp only [dispatch, process_withdrawal, ha]
    split <;> simp
  | Dispute => exact process_dispute_ok row acc h hwf
  | Resolve => exact process_resolve_ok row acc h hwf
  | Chargeback => exact process_chargeback_ok row acc h hwf

/-- Agreement of two histories on all keys of one client. -/
def HistAgree (c : Nat) (h h' : History) : Prop :=
  ∀ k : HistoryKey, k.client = c → h k = h' k

lemma HistAgree.insert_same (c : Nat) (h h' : History) (hag : HistAgree c h h')
    (key : HistoryKey) (row : InputRow) :
    HistAgree c (h.insert key row) (h'.insert key row) := by
  intro k hk
  unfold History.insert
  by_cases hkey : k = key <;> simp [hkey, hag k hk]

/-- Shows `get_dispute_amount` reads the history only at keys of the event's own
client. -/
lemma get_dispute_amount_congr (row : InputRow) (h h' : History)
    (hag : HistAgree row.client h h') :
    get_dispute_amount row h = get_dispute_amount row h' := by
  unfold get_dispute_amount
  rw [hag ⟨row.client, row.tx, TransactionType.Dispute⟩ rfl,
      hag ⟨row.client, row.tx, TransactionType.Deposit⟩ rfl,
      hag ⟨row.client, row.tx, TransactionType.Withdrawal⟩ rfl]

/-- A dispatch reads the history only at keys of the event's own client:
on histories agreeing there it succeeds or panics together, produces the
same account, and the produced histories again agree there. -/
lemma dispatch_congr (t : TransactionType) (row : InputRow) (acc : OutputRow)
    (h h' : History) (hag : HistAgree row.client h h') :
    ((dispatch t row acc h).map Prod.fst
        = (dispatch t row acc h').map Prod.fst) ∧
    (∀ a2 h2 a2' h2', dispatch t row acc h = some (a2, h2) →
      dispatch t row acc h' = some (a2', h2') → HistAgree row.client h2 h2') := by
  cases t with
  | Deposit =>
    cases ham : row.amount with
    | none => simp [dispatch, process_deposit, ham]
    | some a =>
      constructor
      · simp [dispatch, process_deposit, ham]
      · intro a2 h2 a2' h2' hd hd'
        simp only [dispatch, process_deposit, ham, Option.some.injEq,
          Prod.mk.injEq] at hd hd'
        obtain ⟨-, rfl⟩ := hd
        obtain ⟨-, rfl⟩ := hd'
        exact HistAgree.insert_same _ _ _ hag _ row
  | Withdrawal =>
    cases ham : row.amount with
    | none => simp [dispatch, process_withdrawal, ham]
    | some a =>
      by_cases hc : (F32.bgt a acc.available || F32.bgt a acc.total) = true
      · constructor
        · simp [dispatch, process_withdrawal, ham, hc]
        · intro a2 h2 a2' h2' hd hd'
          simp only [dispatch, process_withdrawal, ham, if_pos hc,
            Option.some.injEq, Prod.mk.injEq] at hd hd'
          obtain ⟨-, rfl⟩ := hd
          obtain ⟨-, rfl⟩ := hd'
          exact hag
      · constructor
        · simp [dispatch, process_withdrawal, ham, hc]
        · intro a2 h2 a2' h2' hd hd'
          simp only [dispatch, process_withdrawal, ham, if_neg hc,
            Option.some.injEq, Prod.mk.injEq] at hd hd'
          obtain ⟨-, rfl⟩ := hd
          obtain ⟨-, rfl⟩ := hd'
          exact HistAgree.insert_same _ _ _ hag _ row
  | Dispute =>
    have hD : h ⟨row.client, row.tx, TransactionType.Deposit⟩
        = h' ⟨row.client, row.tx, TransactionType.Deposit⟩ := hag _ rfl
    have hW : h ⟨row.client, row.tx, TransactionType.Withdrawal⟩
        = h' ⟨row.client, row.tx, TransactionType.Withdrawal⟩ := hag _ rfl
    constructor
    · simp only [dispatch, process_dispute, hD, hW]
      cases h' ⟨row.client, row.tx, TransactionType.Deposit⟩ with
      | some depositRow => cases hda : depositRow.amount <;> simp [hda]
      | none =>
        cases h' ⟨row.client, row.tx, TransactionType.Withdrawal⟩ with
        | some withdrawalRow => cases hwa : withdrawalRow.amount <;> simp [hwa]
        | none => simp
    · intro a2 h2 a2' h2' hd hd'
      simp only [dispatch, process_dispute, hD, hW] at hd hd'
      cases hdep : h' ⟨row.client, row.tx, TransactionType.Deposit⟩ with
      | some depositRow =>
        simp only [hdep] at hd hd'
        cases ham : depositRow.amount with
        | none => simp [ham] at hd
        | some a =>
          simp only [ham, Option.some.injEq, Prod.mk.injEq] at hd hd'
          obtain ⟨-, rfl⟩ := hd
          obtain ⟨-, rfl⟩ := hd'
          exact HistAgree.insert_same _ _ _ hag _ row
      | none =>
        simp only [hdep] at hd hd'
        cases hwit : h' ⟨row.client, row.tx, TransactionType.Withdrawal⟩ with
        | some withdrawalRow =>
          simp only [hwit] at hd hd'
          cases ham : withdrawalRow.amount with
          | none => simp [ham] at hd
          | some a =>
            simp only [ham, Option.some.injEq, Prod.mk.injEq] at hd hd'
            obtain ⟨-, rfl⟩ := hd
            obtain ⟨-, rfl⟩ := hd'
            exact HistAgree.insert_same _ _ _ hag _ row
        | none =>
          simp only [hwit, Option.some.injEq, Prod.mk.injEq] at hd hd'
          obtain ⟨-, rfl⟩ := hd
          obtain ⟨-, rfl⟩ := hd'
          exact hag
  | Resolve =>
    have hg : get_dispute_amount row h = get_dispute_amount row h' :=
      get_dispute_amount_congr row h h' hag
    constructor
    · simp only [dispatch, process_resolve, hg]
      cases get_dispute_amount row h' with
      | none => simp
      | some o => cases o <;> simp
    · intro a2 h2 a2' h2' hd hd'
      simp only [dispatch, process_resolve, hg] at hd hd'
      cases hgo : get_dispute_amount row h' with
      | none => simp [hgo] at hd
      | some o =>
        simp only [hgo] at hd hd'
        cases o with
        | none =>
          simp only [Option.some.injEq, Prod.mk.injEq] at hd hd'
          obtain ⟨-, rfl⟩ := hd
          obtain ⟨-, rfl⟩ := hd'
          exact hag
        | some a =>
          simp only [Option.some.injEq, Prod.mk.injEq] at hd hd'
          obtain ⟨-, rfl⟩ := hd
          obtain ⟨-, rfl⟩ := hd'
          exact hag
  | Chargeback =>
    have hg : get_dispute_amount row h = get_dispute_amount row h' :=
      get_dispute_amount_congr row h h' hag
    constructor
    · simp only [dispatch, process_chargeback, hg]
      cases get_dispute_amount row h' with
      | none => simp
      | some o => cases o <;> simp
    · intro a2 h2 a2' h2' hd hd'
      simp only [dispatch, process_chargeback, hg] at hd hd'
      cases hgo : get_dispute_amount row h' with
      | none => simp [hgo] at hd
      | some o =>
        simp only [hgo] at hd hd'
        cases o with
        | none =>
          simp only [Option.some.injEq, Prod.mk.injEq] at hd hd'
          obtain ⟨-, rfl⟩ := hd
          obtain ⟨-, rfl⟩ := hd'
          exact hag
        | some a =>
          simp only [Option.some.injEq, Prod.mk.injEq] at hd hd'
          obtain ⟨-, rfl⟩ := hd
          obtain ⟨-, rfl⟩ := hd'
          exact hag

/-- Agreement of two engine states on one client's projection. -/
def Agree (A : Nat) (s t : EngineState) : Prop :=
  s.clients A = t.clients A ∧
    ∀ k : HistoryKey, k.client = A → s.history k = t.history k

/-- A successful step for another client leaves a client's projection
untouched. -/
lemma step_other (A : Nat) (row : InputRow) (s s' : EngineState)
    (hne : row.client ≠ A)
    (hst : process_single_transaction row s = Except.ok s') :
    s'.clients A = s.clients A ∧
      ∀ k : HistoryKey, k.client = A → s'.history k = s.history k := by
  obtain ⟨ty, acc, a2, h2, hty, hacc, hd, hcl', hh⟩ := step_ok_inv row s s' hst
  constructor
  · have hfun := congrFun hcl' A
    simp only at hfun
    rw [hfun, if_neg (Ne.symm hne)]
    exact create_client_other row.client s.clients A (Ne.symm hne)
  · intro k hk
    rw [hh]
    exact dispatch_frame ty row acc s.history a2 h2 hd k
      (Or.inl (by rw [hk]; exact Ne.symm hne))

/-- A successful step of a client's own event acts the same on any state
agreeing on that client's projection. -/
lemma step_same (A : Nat) (row : InputRow) (s t s' : EngineState)
    (hA : Agree A s t) (hcl : row.client = A)
    (hst : process_single_transaction row s = Except.ok s') :
    ∃ t', process_single_transaction row t = Except.ok t' ∧ Agree A s' t' := by
  obtain ⟨ty, acc, a2, h2, hty, hacc, hd, hcl', hh⟩ := step_ok_inv row s s' hst
  have hconst : s.clients row.client = t.clients row.client := by
    rw [hcl]; exact hA.1
  have hacc' : create_client_if_non_exists row.client t.clients row.client
      = some acc := by
    rw [create_client_self] at hacc ⊢
    rw [← hconst]; exact hacc
  have hagh : HistAgree row.client s.history t.history := by
    intro k hk
    exact hA.2 k (by rw [← hcl]; exact hk)
  obtain ⟨hmap, hist⟩ := dispatch_congr ty row acc s.history t.history hagh
  have hd2 : (dispatch ty row acc t.history).map Prod.fst = some a2 := by
    rw [← hmap, hd]; rfl
  cases hq : dispatch ty row acc t.history with
  | none => rw [hq] at hd2; simp at hd2
  | some p =>
    cases p with
    | mk a2' h2' =>
      rw [hq] at hd2
      simp at hd2
      refine ⟨{ clients := fun c => if c = row.client then some a2'
                  else create_client_if_non_exists row.client t.clients c,
                history := h2' }, ?_, ?_, ?_⟩
      · unfold process_single_transaction
        simp only [hty, hacc', hq]
      · rw [hcl', ← hcl]
        simp [hd2]
      · intro k hk
        rw [hh]
        have := hist a2 h2 a2' h2' hd hq
        exact this k (by rw [← hcl] at hk; exact hk)

/-- Generic conditional invariant preservation along a successful run. -/
lemma run_inv (P : EngineState → Prop) (Q : InputRow → Prop)
    (hstep : ∀ row s s', Q row →
      process_single_transaction row s = Except.ok s' → P s → P s') :
    ∀ evs s s2, (∀ r ∈ evs, Q r) → P s →
      processRows evs s = Except.ok s2 → P s2 := by
  intro evs
  induction evs with
  | nil =>
    intro s s2 hQ hP hrun
    simp only [processRows, Except.ok.injEq] at hrun
    rw [← hrun]; exact hP
  | cons row rest ih =>
    intro s s2 hQ hP hrun
    rw [processRows_cons] at hrun
    cases hst : process_single_transaction row s with
    | error e =>
      simp only [hst] at hrun
      exact absurd hrun (by simp)
    | ok s1 =>
      simp only [hst] at hrun
      exact ih s1 s2 (fun r hr => hQ r (List.mem_cons_of_mem row hr))
        (hstep row s s1 (hQ row (List.mem_cons_self row rest)) hst hP) hrun

/-- One successful step preserves history well-formedness. -/
lemma step_histWF (row : InputRow) (s s' : EngineState)
    (hst : process_single_transaction row s = Except.ok s')
    (hwf : HistWF s.history) : HistWF s'.history := by
  obtain ⟨ty, acc, a2, h2, hty, hacc, hd, hcl', hh⟩ := step_ok_inv row s s' hst
  rw [hh]
  exact dispatch_histWF ty row acc s.history a2 h2 hd hwf

/-- Client-projection simulation: a successful run and the run of its
per-client subsequence end in states agreeing on that client. -/
lemma run_filter_agree (A : Nat) :
    ∀ (evs : List InputRow) (s t s2 : EngineState),
      Agree A s t → processRows evs s = Except.ok s2 →
      ∃ t2, processRows (evs.filter (fun r => r.client == A)) t = Except.ok t2
        ∧ Agree A s2 t2 := by
  intro evs
  induction evs with
  | nil =>
    intro s t s2 hA hrun
    simp only [processRows, Except.ok.injEq] at hrun
    exact ⟨t, rfl, by rw [← hrun]; exact hA⟩
  | cons row rest ih =>
    intro s t s2 hA hrun
    rw [processRows_cons] at hrun
    cases hst : process_single_transaction row s with
    | error e =>
      simp only [hst] at hrun
      exact absurd hrun (by simp)
    | ok s1 =>
      simp only [hst] at hrun
      by_cases hcl : row.client = A
      · obtain ⟨t1, hstep', hA1⟩ := step_same A row s t s1 hA hcl hst
        obtain ⟨t2, hrest, hA2⟩ := ih s1 t1 s2 hA1 hrun
        refine ⟨t2, ?_, hA2⟩
        rw [List.filter_cons_of_pos (by simp [hcl]), processRows_cons]
        simp only [hstep']
        exact hrest
      · have hfr := step_other A row s s1 hcl hst
        have hA1 : Agree A s1 t :=
          ⟨hfr.1.trans hA.1, fun k hk => (hfr.2 k hk).trans (hA.2 k hk)⟩
        obtain ⟨t2, hrest, hA2⟩ := ih s1 t s2 hA1 hrun
        refine ⟨t2, ?_, hA2⟩
        rw [List.filter_cons_of_neg (by simp [hcl])]
        exact hrest

/-! ## Example data used by witnesses and counterexamples -/

/-- An everywhere-empty history. -/
def emptyHistory : History := fun _ => none

/-- The binary32 value 3.0 (exactly representable). -/
def f32Three : F32 := F32.finite (3 * 2 ^ 149)

/-- The binary32 value 4.0 (exactly representable). -/
def f32Four : F32 := F32.finite (4 * 2 ^ 149)

/-- The binary32 value 5.0 (exactly representable). -/
def f32Five : F32 := F32.finite (5 * 2 ^ 149)

/-- The binary32 value 6.0 (exactly representable). -/
def f32Six : F32 := F32.finite (6 * 2 ^ 149)

/-- The binary32 value 7.0 (exactly representable). -/
def f32Seven : F32 := F32.finite (7 * 2 ^ 149)

/-- The binary32 value 100000000.0, i.e. 1.0e8 (exactly representable:
1.0e8 = 390625 * 2 ^ 8 and 390625 < 2 ^ 24).  Its unit in the last place
is 8, so adding or subtracting 3.0 is absorbed by rounding. -/
def f32Big : F32 := F32.finite (100000000 * 2 ^ 149)

/-- A deposit of 5 for client 1, tx 1. -/
def exDeposit : InputRow := ⟨"deposit", 1, 1, some f32Five⟩

/-- A second deposit reusing client 1, tx 1 with a different amount. -/
def exDeposit2 : InputRow := ⟨"deposit", 1, 1, some f32Seven⟩

/-- A withdrawal of 3 for client 1, tx 2. -/
def exWithdrawRow : InputRow := ⟨"withdrawal", 1, 2, some f32Three⟩

/-- A dispute referencing client 1, tx 1. -/
def exDispute : InputRow := ⟨"dispute", 1, 1, none⟩

/-- A resolve referencing client 1, tx 1. -/
def exResolve : InputRow := ⟨"resolve", 1, 1, none⟩

/-- A row whose kind token is not one of the five recognized strings
(capitalization matters). -/
def exBadRow : InputRow := ⟨"Deposit", 1, 1, some f32Five⟩

/-- An example account. -/
def exAccount : OutputRow := ⟨1, f32Five, F32.finite 0, f32Five, false⟩

/-- The state after processing `[exDeposit]`. -/
def exState1 : EngineState :=
  (processRows [exDeposit] initialState).toOption.getD initialState

/-- The state after processing `[exDeposit, exDeposit2]`. -/
def exState2 : EngineState :=
  (processRows [exDeposit, exDeposit2] initialState).toOption.getD initialState

/-- The state after processing `[exDeposit, exDispute]`. -/
def exStateD : EngineState :=
  (processRows [exDeposit, exDispute] initialState).toOption.getD initialState

/-! ## The claims -/

set_option maxRecDepth 100000

/-- A deposit of 1.0e8 for client 1, tx 1. -/
def exDepositBig : InputRow := ⟨"deposit", 1, 1, some f32Big⟩

/-- A deposit of 3.0 for client 1, tx 2. -/
def exDepositSmall : InputRow := ⟨"deposit", 1, 2, some f32Three⟩

/-- A dispute referencing client 1, tx 2. -/
def exDisputeSmall : InputRow := ⟨"dispute", 1, 2, none⟩

/-- The event sequence on which the claimed balance invariant fails:
deposit 1.0e8, deposit 3.0 (absorbed by rounding), then dispute the 3.0
deposit twice (the code accepts repeated disputes).  Each dispute's
`available -= 3.0` is absorbed, while `held += 3.0` is exact. -/
def c1FailingRun : List InputRow :=
  [exDepositBig, exDepositSmall, exDisputeSmall, exDisputeSmall]

/-- The state after processing `c1FailingRun`. -/
def exStateC1 : EngineState :=
  (processRows c1FailingRun initialState).toOption.getD initialState

/-- C1: the claimed invariant `total == available + held` is broken by the
program's f32 rounding.  After `c1FailingRun` the account holds
`available = 1.0e8`, `held = 6.0`, `total = 1.0e8`; `available + held`
computed in f32 is `100000008.0`, so the invariant fails both under f32
`==` and exactly.  (The spec states the invariant and itself warns
implementations away from the reference's binary floats, so the f32
representation is the slip: a code bug, not a spec error.) -/
theorem spec_C1_float_violation :
    processRows c1FailingRun initialState = Except.ok exStateC1 ∧
    ∃ a, exStateC1.clients 1 = some a ∧
      a.available = f32Big ∧ a.held = f32Six ∧ a.total = f32Big ∧
      F32.beq a.total (F32.add a.available a.held) = false ∧
      a.total ≠ F32.add a.available a.held := by
  refine ⟨rfl, _, rfl, ?_, ?_, ?_, ?_, ?_⟩ <;> decide

/-- C2: an event whose kind token is not exactly one of the five recognized
strings is rejected before any rule runs, and the whole run aborts with the
propagated error, whatever events follow. -/
theorem spec_C2_unknown_kind_aborts (row : InputRow) (pre rest : List InputRow)
    (s : EngineState)
    (hty : row.transaction_type = none)
    (hpre : processRows pre initialState = Except.ok s) :
    process_single_transaction row s = Except.error RunError.invalidTransactionType ∧
    processRows (pre ++ row :: rest) initialState
      = Except.error RunError.invalidTransactionType := by
  have hstep : process_single_transaction row s
      = Except.error RunError.invalidTransactionType := by
    unfold process_single_transaction
    simp only [hty]
  refine ⟨hstep, ?_⟩
  rw [processRows_append]
  simp only [hpre]
  rw [processRows_cons]
  simp only [hstep]

/-- Witness for C2 at the concrete bad row `exBadRow` followed by a valid
deposit that is never processed. -/
theorem spec_C2_witness :
    process_single_transaction exBadRow initialState
      = Except.error RunError.invalidTransactionType ∧
    processRows ([] ++ exBadRow :: [exDeposit]) initialState
      = Except.error RunError.invalidTransactionType :=
  spec_C2_unknown_kind_aborts exBadRow [] [exDeposit] initialState (by decide) rfl

/-- An account with 1.0e8 available and in total. -/
def exBigAcc : OutputRow := ⟨1, f32Big, F32.finite 0, f32Big, false⟩

/-- A withdrawal of 3.0 for client 1, tx 5, from a 1.0e8 balance. -/
def exWAbsorb : InputRow := ⟨"withdrawal", 1, 5, some f32Three⟩

/-- C3 counterexample: a withdrawal of 3.0 from a 1.0e8 balance passes the
funds check, takes the success branch (the event is recorded under
`(client, tx, Withdrawal)`), yet leaves `available` and `total` unchanged:
the f32 subtraction `1.0e8 - 3.0` rounds back to `1.0e8`.  So "available
and total each decrease by amount" is false for the program even when the
amount is nonzero. -/
theorem spec_C3_counterexample :
    ∃ a2 h2, process_withdrawal exWAbsorb exBigAcc emptyHistory = some (a2, h2) ∧
      h2 ⟨1, 5, TransactionType.Withdrawal⟩ = some exWAbsorb ∧
      a2.available = exBigAcc.available ∧
      a2.total = exBigAcc.total ∧
      F32.beq f32Three (F32.finite 0) = false := by
  refine ⟨_, _, rfl, rfl, ?_, ?_, by decide⟩ <;> decide

/-- C3 amended: a withdrawal with a present amount is a complete no-op
(account and history unchanged) when the amount exceeds `available` or
`total` under f32 comparison; otherwise `available` and `total` are each
replaced by the f32-rounded difference with the amount — which can leave
them unchanged when the subtraction is absorbed by rounding — and the event
is recorded under `(client, tx, Withdrawal)`. -/
theorem spec_C3_withdrawal_amended (row : InputRow) (acc : OutputRow)
    (h : History) (a : F32) (ha : row.amount = some a) :
    process_withdrawal row acc h =
      some (if F32.bgt a acc.available || F32.bgt a acc.total then (acc, h)
        else ({ acc with
                  available := F32.sub acc.available a,
                  total := F32.sub acc.total a },
          h.insert ⟨row.client, row.tx, TransactionType.Withdrawal⟩ row)) := by
  unfold process_withdrawal
  simp only [ha]
  by_cases hc : (F32.bgt a acc.available || F32.bgt a acc.total) = true <;>
    simp [hc]

/-- Witness for the amended C3 at a concrete in-funds withdrawal. -/
theorem spec_C3_witness :
    process_withdrawal exWithdrawRow exAccount emptyHistory =
      some (if F32.bgt f32Three exAccount.available ||
              F32.bgt f32Three exAccount.total
        then (exAccount, emptyHistory)
        else ({ exAccount with
                  available := F32.sub exAccount.available f32Three,
                  total := F32.sub exAccount.total f32Three },
          emptyHistory.insert
            ⟨exWithdrawRow.client, exWithdrawRow.tx, TransactionType.Withdrawal⟩
            exWithdrawRow)) :=
  spec_C3_withdrawal_amended exWithdrawRow exAccount emptyHistory f32Three rfl

/-- A deposit of 3.0 for client 1, tx 1 (used as a disputed reference). -/
def exDeposit3 : InputRow := ⟨"deposit", 1, 1, some f32Three⟩

/-- A history holding only the 3.0 deposit under `(1, 1, Deposit)`. -/
def exHistDep3 : History :=
  emptyHistory.insert ⟨1, 1, TransactionType.Deposit⟩ exDeposit3

/-- C4 counterexample: disputing a recorded 3.0 deposit against a 1.0e8
balance takes the effect branch (the dispute is recorded and `held` becomes
3.0), yet `available` is unchanged: the f32 subtraction `1.0e8 - 3.0`
rounds back to `1.0e8`.  So "available decreases by that amount" is false
for the program even though the amount is nonzero. -/
theorem spec_C4_counterexample :
    ∃ a2 h2, process_dispute exDispute exBigAcc exHistDep3 = some (a2, h2) ∧
      h2 ⟨1, 1, TransactionType.Dispute⟩ = some exDispute ∧
      a2.held = f32Three ∧
      a2.available = exBigAcc.available ∧
      F32.beq f32Three (F32.finite 0) = false := by
  refine ⟨_, _, rfl, rfl, ?_, ?_, by decide⟩ <;> decide

/-- C4 amended: a dispute uses the referenced deposit's amount when a
deposit entry exists (checked first), falls back to the referenced
withdrawal's amount, replaces `available` by the f32-rounded difference
with that amount and `held` by the f32-rounded sum — either of which can be
absorbed by rounding — and records itself under `(client, tx, Dispute)`;
with neither entry present it is a complete no-op. -/
theorem spec_C4_dispute_amended (row : InputRow) (acc : OutputRow)
    (h : History) :
    (∀ e a, h ⟨row.client, row.tx, TransactionType.Deposit⟩ = some e →
      e.amount = some a →
      process_dispute row acc h =
        some ({ acc with
                  available := F32.sub acc.available a,
                  held := F32.add acc.held a },
          h.insert ⟨row.client, row.tx, TransactionType.Dispute⟩ row)) ∧
    (∀ e a, h ⟨row.client, row.tx, TransactionType.Deposit⟩ = none →
      h ⟨row.client, row.tx, TransactionType.Withdrawal⟩ = some e →
      e.amount = some a →
      process_dispute row acc h =
        some ({ acc with
                  available := F32.sub acc.available a,
                  held := F32.add acc.held a },
          h.insert ⟨row.client, row.tx, TransactionType.Dispute⟩ row)) ∧
    (h ⟨row.client, row.tx, TransactionType.Deposit⟩ = none →
      h ⟨row.client, row.tx, TransactionType.Withdrawal⟩ = none →
      process_dispute row acc h = some (acc, h)) := by
  refine ⟨?_, ?_, ?_⟩
  · intro e a hdep ham
    unfold process_dispute
    simp only [hdep, ham]
  · intro e a hdep hwit ham
    unfold process_dispute
    simp only [hdep, hwit, ham]
  · intro hdep hwit
    unfold process_dispute
    simp only [hdep, hwit]

/-- Witness for the amended C4: disputing the recorded deposit
`exDeposit`. -/
theorem spec_C4_witness :
    process_dispute exDispute exAccount exState1.history =
      some ({ exAccount with
                available := F32.sub exAccount.available f32Five,
                held := F32.add exAccount.held f32Five },
        exState1.history.insert
          ⟨exDispute.client, exDispute.tx, TransactionType.Dispute⟩ exDispute) :=
  (spec_C4_dispute_amended exDispute exAccount exState1.history).1
    exDeposit f32Five rfl rfl

/-- A history holding the 3.0 deposit under `(1, 1, Deposit)` and a dispute
entry under `(1, 1, Dispute)`. -/
def exHistDisp3 : History :=
  exHistDep3.insert ⟨1, 1, TransactionType.Dispute⟩ exDispute

/-- An account with 1.0e8 available, 3.0 held, 1.0e8 total. -/
def exHeldAcc : OutputRow := ⟨1, f32Big, f32Three, f32Big, false⟩

/-- C5 counterexample: resolving a recorded 3.0 dispute against a 1.0e8
balance takes the effect branch (`held` drops from 3.0 to 0.0), yet
`available` is unchanged: the f32 addition `1.0e8 + 3.0` rounds back to
`1.0e8`.  So resolve's "available += amount" is false for the program even
though the amount is nonzero. -/
theorem spec_C5_counterexample :
    ∃ a2 h2, process_resolve exResolve exHeldAcc exHistDisp3 = some (a2, h2) ∧
      a2.held = F32.finite 0 ∧
      a2.available = exHeldAcc.available ∧
      F32.beq f32Three (F32.finite 0) = false := by
  refine ⟨_, _, rfl, ?_, ?_, by decide⟩ <;> decide

/-- C5 amended: resolve and chargeback have an effect exactly when a
Dispute entry exists for `(client, tx)` and an amount is recoverable from
the referenced Deposit (checked first) or Withdrawal entry; otherwise they
are no-ops.  On effect, resolve replaces `held` by the f32-rounded
difference with the amount and `available` by the f32-rounded sum;
chargeback replaces `held` and `total` by the f32-rounded differences and
locks the account — any of these updates can be absorbed by rounding.
Neither ever inserts a history entry (the history is returned unchanged in
all cases). -/
theorem spec_C5_resolve_chargeback_amended (row : InputRow) (acc : OutputRow)
    (h : History) :
    (h ⟨row.client, row.tx, TransactionType.Dispute⟩ = none →
      process_resolve row acc h = some (acc, h) ∧
      process_chargeback row acc h = some (acc, h)) ∧
    (h ⟨row.client, row.tx, TransactionType.Deposit⟩ = none →
      h ⟨row.client, row.tx, TransactionType.Withdrawal⟩ = none →
      process_resolve row acc h = some (acc, h) ∧
      process_chargeback row acc h = some (acc, h)) ∧
    (∀ d e a, h ⟨row.client, row.tx, TransactionType.Dispute⟩ = some d →
      h ⟨row.client, row.tx, TransactionType.Deposit⟩ = some e →
      e.amount = some a →
      process_resolve row acc h =
        some ({ acc with
                  held := F32.sub acc.held a,
                  available := F32.add acc.available a }, h) ∧
      process_chargeback row acc h =
        some ({ acc with
                  held := F32.sub acc.held a,
                  total := F32.sub acc.total a,
                  locked := true }, h)) ∧
    (∀ d e a, h ⟨row.client, row.tx, TransactionType.Dispute⟩ = some d →
      h ⟨row.client, row.tx, TransactionType.Deposit⟩ = none →
      h ⟨row.client, row.tx, TransactionType.Withdrawal⟩ = some e →
      e.amount = some a →
      process_resolve row acc h =
        some ({ acc with
                  held := F32.sub acc.held a,
                  available := F32.add acc.available a }, h) ∧
      process_chargeback row acc h =
        some ({ acc with
                  held := F32.sub acc.held a,
                  total := F32.sub acc.total a,
                  locked := true }, h)) := by
  refine ⟨?_, ?_, ?_, ?_⟩
  · intro hdis
    have hg : get_dispute_amount row h = some none := by
      unfold get_dispute_amount
      simp [hdis]
    constructor
    · unfold process_resolve
      simp only [hg]
    · unfold process_chargeback
      simp only [hg]
  · intro hdep hwit
    have hg : get_dispute_amount row h = some none := by
      unfold get_dispute_amount
      by_cases hdis : (h ⟨row.client, row.tx, TransactionType.Dispute⟩).isSome <;>
        simp [hdis, hdep, hwit]
    constructor
    · unfold process_resolve
      simp only [hg]
    · unfold process_chargeback
      simp only [hg]
  · intro d e a hdis hdep ham
    have hg : get_dispute_amount row h = some (some a) := by
      unfold get_dispute_amount
      simp [hdis, hdep, ham]
    constructor
    · unfold process_resolve
      simp only [hg]
    · unfold process_chargeback
      simp only [hg]
  · intro d e a hdis hdep hwit ham
    have hg : get_dispute_amount row h = some (some a) := by
      unfold get_dispute_amount
      simp [hdis, hdep, hwit, ham]
    constructor
    · unfold process_resolve
      simp only [hg]
    · unfold process_chargeback
      simp only [hg]

/-- Witness for the amended C5: resolving and charging back the recorded
dispute of `exDeposit` in the state after `[exDeposit, exDispute]`. -/
theorem spec_C5_witness :
    process_resolve exResolve exAccount exStateD.history =
      some ({ exAccount with
                held := F32.sub exAccount.held f32Five,
                available := F32.add exAccount.available f32Five },
        exStateD.history) ∧
    process_chargeback exResolve exAccount exStateD.history =
      some ({ exAccount with
                held := F32.sub exAccount.held f32Five,
                total := F32.sub exAccount.total f32Five,
                locked := true }, exStateD.history) :=
  (spec_C5_resolve_chargeback_amended exResolve exAccount exStateD.history).2.2.1
    exDispute exDeposit f32Five rfl rfl rfl

/-- C6 counterexample: a deposit whose amount field is absent makes
`process_deposit` panic (`amount.unwrap()` on `None`, embedded as `none`),
and the engine step surfaces it as an abort — the rule does not return
normally, contradicting the claim that the rules never raise for any
event. -/
theorem spec_C6_counterexample :
    process_deposit ⟨"deposit", 1, 1, none⟩ (zeroAccount 1) emptyHistory = none ∧
    process_single_transaction ⟨"deposit", 1, 1, none⟩ initialState
      = Except.error RunError.panicked :=
  ⟨rfl, rfl⟩

/-- C6 amended: a dispatched rule returns normally (treating inapplicable
events as no-ops) provided the event carries an amount when it is a deposit
or withdrawal, and every Deposit/Withdrawal history entry carries an amount
(true in every reachable state); without those provisos the rule can
panic. -/
theorem spec_C6_no_panic_amended (t : TransactionType) (row : InputRow)
    (acc : OutputRow) (h : History) (hwf : HistWF h)
    (hamt : t = TransactionType.Deposit ∨ t = TransactionType.Withdrawal →
      row.amount.isSome) :
    (dispatch t row acc h).isSome :=
  dispatch_ok t row acc h hwf hamt

/-- Witness for the amended C6 at a concrete deposit. -/
theorem spec_C6_witness :
    (dispatch TransactionType.Deposit exDeposit exAccount emptyHistory).isSome :=
  spec_C6_no_panic_amended TransactionType.Deposit exDeposit exAccount
    emptyHistory histWF_empty (fun _ => rfl)

/-- C7 counterexample: two deposits reusing `(client 1, tx 1)` with
different amounts; the later insert overwrites the history entry
(`HashMap::insert` replaces), so the lookup returns the second event, not
the originally inserted one. -/
theorem spec_C7_counterexample :
    processRows [exDeposit, exDeposit2] initialState = Except.ok exState2 ∧
    exState2.history ⟨1, 1, TransactionType.Deposit⟩ = some exDeposit2 ∧
    exDeposit2 ≠ exDeposit :=
  ⟨rfl, rfl, by decide⟩

lemma step_history_isSome (k : HistoryKey) (row : InputRow) (s s' : EngineState)
    (hst : process_single_transaction row s = Except.ok s')
    (hk : (s.history k).isSome) : (s'.history k).isSome := by
  obtain ⟨ty, acc, a2, h2, hty, hacc, hd, hcl', hh⟩ := step_ok_inv row s s' hst
  rw [hh]
  exact dispatch_mono ty row acc s.history a2 h2 hd k hk

lemma step_history_frame (k : HistoryKey) (e : InputRow) (row : InputRow)
    (s s' : EngineState)
    (hne : row.client ≠ k.client ∨ row.tx ≠ k.tx)
    (hst : process_single_transaction row s = Except.ok s')
    (hk : s.history k = some e) : s'.history k = some e := by
  obtain ⟨ty, acc, a2, h2, hty, hacc, hd, hcl', hh⟩ := step_ok_inv row s s' hst
  rw [hh, dispatch_frame ty row acc s.history a2 h2 hd k (hne.imp Ne.symm Ne.symm)]
  exact hk

/-- C7 amended: a history entry, once inserted, is never deleted — every
later lookup of its key still finds an entry — and it is returned verbatim
by every later lookup as long as no later processed event carries the same
client and tx (a later event reusing both can overwrite it, as the
counterexample shows). -/
theorem spec_C7_history_amended (evs : List InputRow) (s s2 : EngineState)
    (k : HistoryKey) (e : InputRow)
    (hrun : processRows evs s = Except.ok s2)
    (he : s.history k = some e) :
    (s2.history k).isSome ∧
      ((∀ r ∈ evs, r.client ≠ k.client ∨ r.tx ≠ k.tx) →
        s2.history k = some e) := by
  constructor
  · exact run_inv (fun st => (st.history k).isSome) (fun _ => True)
      (fun row s1 s1' _ hst hP => step_history_isSome k row s1 s1' hst hP)
      evs s s2 (fun _ _ => trivial) (by simp [he]) hrun
  · intro hall
    exact run_inv (fun st => st.history k = some e)
      (fun r => r.client ≠ k.client ∨ r.tx ≠ k.tx)
      (fun row s1 s1' hQ hst hP => step_history_frame k e row s1 s1' hQ hst hP)
      evs s s2 hall he hrun

/-- A dispute referencing a transaction id (tx 2) with no history entry. -/
def exDisputeNoRef : InputRow := ⟨"dispute", 1, 2, none⟩

/-- The state after processing `[exDisputeNoRef]` from `exState1`. -/
def exState1D : EngineState :=
  (processRows [exDisputeNoRef] exState1).toOption.getD initialState

/-- Witness for the amended C7: the deposit entry survives a later event of
the same client under a different tx. -/
theorem spec_C7_witness :
    (exState1D.history ⟨1, 1, TransactionType.Deposit⟩).isSome ∧
      ((∀ r ∈ [exDisputeNoRef],
          r.client ≠ (⟨1, 1, TransactionType.Deposit⟩ : HistoryKey).client ∨
          r.tx ≠ (⟨1, 1, TransactionType.Deposit⟩ : HistoryKey).tx) →
        exState1D.history ⟨1, 1, TransactionType.Deposit⟩ = some exDeposit) :=
  spec_C7_history_amended [exDisputeNoRef] exState1 exState1D
    ⟨1, 1, TransactionType.Deposit⟩ exDeposit rfl rfl

/-- C8: a client's final account state (and history slice) depends only on
the subsequence of events carrying that client id — the run of the filtered
subsequence reaches a state agreeing with the full run on that client, for
every interleaving with other clients' events. -/
theorem spec_C8_client_isolation (evs : List InputRow) (A : Nat)
    (s : EngineState)
    (hrun : processRows evs initialState = Except.ok s) :
    ∃ sA, processRows (evs.filter (fun r => r.client == A)) initialState
        = Except.ok sA ∧
      s.clients A = sA.clients A ∧
      ∀ k : HistoryKey, k.client = A → s.history k = sA.history k := by
  obtain ⟨t2, h1, h2, h3⟩ := run_filter_agree A evs initialState initialState s
    ⟨rfl, fun _ _ => rfl⟩ hrun
  exact ⟨t2, h1, h2, h3⟩

/-- A deposit of 4 for a second client (client 2, tx 3). -/
def exDepositB : InputRow := ⟨"deposit", 2, 3, some f32Four⟩

/-- The state after processing `[exDeposit, exDepositB]`. -/
def exStateAB : EngineState :=
  (processRows [exDeposit, exDepositB] initialState).toOption.getD initialState

/-- Witness for C8: client 1's state in a two-client run agrees with the
run of client 1's events alone. -/
theorem spec_C8_witness :
    ∃ sA, processRows ([exDeposit, exDepositB].filter (fun r => r.client == 1))
        initialState = Except.ok sA ∧
      exStateAB.clients 1 = sA.clients 1 ∧
      ∀ k : HistoryKey, k.client = 1 → exStateAB.history k = sA.history k :=
  spec_C8_client_isolation [exDeposit, exDepositB] 1 exStateAB rfl

/-- C9: in every reachable state, a history entry stored under a Deposit or
Withdrawal key has a present amount field, so the amount recoveries of
dispute, resolve and chargeback never hit a failing `unwrap` — the three
processors return normally on any event against such a history. -/
theorem spec_C9_history_amounts (evs : List InputRow) (s : EngineState)
    (row : InputRow) (acc : OutputRow) (k : HistoryKey) (e : InputRow)
    (hrun : processRows evs initialState = Except.ok s)
    (hk : s.history k = some e)
    (hkind : k.tx_type = TransactionType.Deposit ∨
      k.tx_type = TransactionType.Withdrawal) :
    e.amount.isSome ∧
    (process_dispute row acc s.history).isSome ∧
    (process_resolve row acc s.history).isSome ∧
    (process_chargeback row acc s.history).isSome := by
  have hwf : HistWF s.history :=
    run_inv (fun st => HistWF st.history) (fun _ => True)
      (fun row2 s1 s2 _ hst hP => step_histWF row2 s1 s2 hst hP)
      evs initialState s (fun _ _ => trivial) histWF_empty hrun
  exact ⟨hwf k e hk hkind, process_dispute_ok row acc s.history hwf,
    process_resolve_ok row acc s.history hwf,
    process_chargeback_ok row acc s.history hwf⟩

/-- Witness for C9 at the deposit entry recorded by `[exDeposit]`. -/
theorem spec_C9_witness :
    exDeposit.amount.isSome ∧
    (process_dispute exResolve exAccount exState1.history).isSome ∧
    (process_resolve exResolve exAccount exState1.history).isSome ∧
    (process_chargeback exResolve exAccount exState1.history).isSome :=
  spec_C9_history_amounts [exDeposit] exState1 exResolve exAccount
    ⟨1, 1, TransactionType.Deposit⟩ exDeposit rfl rfl (Or.inl rfl)

lemma step_clients_isSome (c : Nat) (row : InputRow) (s s' : EngineState)
    (hst : process_single_transaction row s = Except.ok s')
    (hc : (s.clients c).isSome) : (s'.clients c).isSome := by
  obtain ⟨ty, acc, a2, h2, hty, hacc, hd, hcl', hh⟩ := step_ok_inv row s s' hst
  simp only [hcl']
  by_cases hcc : c = row.client
  · simp [hcc]
  · simp [hcc, create_client_other row.client s.clients c hcc, hc]

/-- C10: a recognized event creates its client's zero account before its
rule runs — a successful step always leaves the client present; a dispute,
resolve or chargeback referencing unknown history for a never-seen client
succeeds as a pure account creation (zero balances, unlocked, history
untouched); and accounts, once present, persist to the end of the run
(unchanged if no later event carries that client). -/
theorem spec_C10_account_creation (row : InputRow) (t : TransactionType)
    (s s' : EngineState) (evs : List InputRow) (s2 : EngineState)
    (c : Nat) (a : OutputRow)
    (hty : row.transaction_type = some t) :
    (process_single_transaction row s = Except.ok s' →
      (s'.clients row.client).isSome) ∧
    (s.clients row.client = none →
      (t = TransactionType.Dispute ∨ t = TransactionType.Resolve ∨
        t = TransactionType.Chargeback) →
      s.history ⟨row.client, row.tx, TransactionType.Deposit⟩ = none →
      s.history ⟨row.client, row.tx, TransactionType.Withdrawal⟩ = none →
      process_single_transaction row s = Except.ok
        { clients := fun c2 => if c2 = row.client
            then some (zeroAccount row.client) else s.clients c2,
          history := s.history }) ∧
    (s.clients c = some a → processRows evs s = Except.ok s2 →
      (s2.clients c).isSome ∧
        ((∀ r ∈ evs, r.client ≠ c) → s2.clients c = some a)) := by
  refine ⟨?_, ?_, ?_⟩
  · intro hok
    obtain ⟨ty, acc, a2, h2, hty2, hacc, hd, hcl', hh⟩ := step_ok_inv row s s' hok
    simp only [hcl']
    simp
  · intro hnone htt hdep hwit
    have hzero : create_client_if_non_exists row.client s.clients row.client
        = some (zeroAccount row.client) := by
      rw [create_client_self, hnone]
      rfl
    have hcfun : (fun c2 => if c2 = row.client
          then some (zeroAccount row.client)
          else create_client_if_non_exists row.client s.clients c2)
        = fun c2 => if c2 = row.client
            then some (zeroAccount row.client) else s.clients c2 := by
      funext c2
      by_cases hc2 : c2 = row.client
      · simp [hc2]
      · simp [hc2, create_client_other row.client s.clients c2 hc2]
    have hdisp : dispatch t row (zeroAccount row.client) s.history
        = some (zeroAccount row.client, s.history) := by
      rcases htt with rfl | rfl | rfl
      · simp only [dispatch, process_dispute, hdep, hwit]
      · have hg : get_dispute_amount row s.history = some none := by
          unfold get_dispute_amount
          by_cases hdis :
              (s.history ⟨row.client, row.tx, TransactionType.Dispute⟩).isSome <;>
            simp [hdis, hdep, hwit]
        simp only [dispatch, process_resolve, hg]
      · have hg : get_dispute_amount row s.history = some none := by
          unfold get_dispute_amount
          by_cases hdis :
              (s.history ⟨row.client, row.tx, TransactionType.Dispute⟩).isSome <;>
            simp [hdis, hdep, hwit]
        simp only [dispatch, process_chargeback, hg]
    unfold process_single_transaction
    simp only [hty, hzero, hdisp, hcfun]
  · intro hca hrun2
    constructor
    · exact run_inv (fun st => (st.clients c).isSome) (fun _ => True)
        (fun row2 s1 s1' _ hst hP => step_clients_isSome c row2 s1 s1' hst hP)
        evs s s2 (fun _ _ => trivial) (by simp [hca]) hrun2
    · intro hall
      exact run_inv (fun st => st.clients c = some a) (fun r => r.client ≠ c)
        (fun row2 s1 s1' hQ hst hP =>
          ((step_other c row2 s1 s1' hQ hst).1).trans hP)
        evs s s2 hall hca hrun2

/-- A dispute for a never-seen client (client 7) referencing an unknown
transaction (tx 9). -/
def exDisputeFresh : InputRow := ⟨"dispute", 7, 9, none⟩

/-- The state after processing `[exDisputeFresh]`. -/
def exStateFresh : EngineState :=
  (processRows [exDisputeFresh] initialState).toOption.getD initialState

/-- Witness for C10 at a no-op dispute for a fresh client. -/
theorem spec_C10_witness :
    (process_single_transaction exDisputeFresh initialState
        = Except.ok exStateFresh →
      (exStateFresh.clients exDisputeFresh.client).isSome) ∧
    (initialState.clients exDisputeFresh.client = none →
      (TransactionType.Dispute = TransactionType.Dispute ∨
        TransactionType.Dispute = TransactionType.Resolve ∨
        TransactionType.Dispute = TransactionType.Chargeback) →
      initialState.history
        ⟨exDisputeFresh.client, exDisputeFresh.tx, TransactionType.Deposit⟩ = none →
      initialState.history
        ⟨exDisputeFresh.client, exDisputeFresh.tx, TransactionType.Withdrawal⟩ = none →
      process_single_transaction exDisputeFresh initialState = Except.ok
        { clients := fun c2 => if c2 = exDisputeFresh.client
            then some (zeroAccount exDisputeFresh.client)
            else initialState.clients c2,
          history := initialState.history }) ∧
    (initialState.clients 1 = some (zeroAccount 1) →
      processRows [] initialState = Except.ok initialState →
      (initialState.clients 1).isSome ∧
        ((∀ r ∈ ([] : List InputRow), r.client ≠ 1) →
          initialState.clients 1 = some (zeroAccount 1))) :=
  spec_C10_account_creation exDisputeFresh TransactionType.Dispute
    initialState exStateFresh [] initialState 1 (zeroAccount 1) rfl
